import Mathlib

/-!
Shallow embedding of the redux store core (createStore / combineReducers /
compose / applyMiddleware) and proofs of the frozen claims about it.

The store engine (`createStore` in the source) keeps mutable fields
`currentReducer`, `currentState`, `currentListeners`, `nextListeners`,
`isDispatching`; here they become a state record threaded explicitly.
JavaScript exceptions become `Except Err`; a thrown error is `.error e`
and the post-throw field values are returned alongside.  Reference
identity of listener callbacks (JavaScript `===` on function objects) is
modelled by a numeric id; reference identity of the two listener arrays
(`nextListeners === currentListeners`) is modelled by the boolean field
`sameRef`, and `ensureCanMutateNextListeners` mirrors the copy-on-write
clone of the source.  Dispatch additionally returns the ordered list of
listener ids it invoked, as ghost instrumentation for the notification
claims.
-/

set_option autoImplicit false

namespace Redux

/-- Errors thrown by the core.  The source throws `Error` objects with
message strings; here each distinct throw site is a distinct constructor,
and `reducerRaised` stands for an arbitrary error thrown by user reducer
code (including a reentrancy error propagating out of a reducer that
called dispatch on its own store). -/
inductive Err where
  | actionNotPlain
  | actionTypeUndefined
  | dispatchWhileDispatching
  | getStateWhileDispatching
  | subscribeWhileDispatching
  | unsubscribeWhileDispatching
  | reducerRaised (code : Nat)
  | reducerUndefinedOnInit (key : String)
  | reducerUndefinedOnProbe (key : String)
  | sliceUndefined (key : String) (actionType : Option String)
  deriving DecidableEq, Repr

/-- A dispatched value.  `plain` models the `isPlainObject` check (the
`isPlainObject` util is not under `src/`; the spec describes it as a
plain-object type guard, so the predicate outcome is carried as a field);
`type` is the `type` property, `none` when it is `undefined`. -/
structure RAction where
  plain : Bool
  type : Option String
  deriving DecidableEq, Repr

/-- One store-mutating call a listener callback may perform during the
notification loop: subscribing a new listener (with its own callback
script), or invoking a live unsubscribe closure for the registration of
the callback with the given id. -/
inductive LAct where
  | sub (id : Nat) (script : List LAct)
  | unsub (id : Nat)

/-- A listener callback: its identity (JavaScript function reference)
and the store-mutating calls it performs when invoked. -/
structure Listener where
  id : Nat
  script : List LAct

/-- Reducers as the store engine sees them: they may receive and return
`undefined` state (`none`), and may throw. -/
def StoreReducer (σ : Type) : Type :=
  Option σ → RAction → Except Err (Option σ)

/-- The mutable fields of the createStore closure. -/
structure StoreSt (σ : Type) where
  currentReducer : StoreReducer σ
  currentState : Option σ
  currentListeners : List Listener
  nextListeners : List Listener
  /-- `nextListeners` and `currentListeners` are the same array object. -/
  sameRef : Bool
  isDispatching : Bool

variable {σ : Type}

/-- `ensureCanMutateNextListeners` from the source: if the staging list
is still the same array object as the active snapshot, replace it by a
clone (same elements, distinct object) before mutating. -/
def ensureCanMutateNextListeners (st : StoreSt σ) : StoreSt σ :=
  if st.sameRef then
    { st with nextListeners := st.currentListeners, sameRef := false }
  else st

/-- The mutation performed by `subscribe`: clone-on-write, then push the
listener onto the staging list. -/
def subscribeEff (l : Listener) (st : StoreSt σ) : StoreSt σ :=
  let st1 := ensureCanMutateNextListeners st
  { st1 with nextListeners := st1.nextListeners ++ [l] }

/-- `Array.prototype.indexOf` on the listener array, comparing by
function reference (modelled by id); `-1` when absent. -/
def indexOfId (lid : Nat) : List Listener → Int
  | [] => -1
  | l :: rest =>
    if l.id = lid then 0
    else
      let r := indexOfId lid rest
      if r = -1 then -1 else r + 1

/-- `Array.prototype.splice(i, 1)`: a negative index counts from the end
(clamped at 0), an index past the end removes nothing. -/
def spliceOne (ls : List Listener) (i : Int) : List Listener :=
  let len : Int := ls.length
  let actual : Nat := (if i < 0 then max (len + i) 0 else min i len).toNat
  ls.take actual ++ ls.drop (actual + 1)

/-- The state of one unsubscribe closure returned by `subscribe`: the id
of the registered callback and the captured `isSubscribed` flag. -/
structure Token where
  lid : Nat
  isSubscribed : Bool
  deriving DecidableEq, Repr

/-- The `unsubscribe` closure from the source: a no-op once
`isSubscribed` is cleared, an error while dispatching, otherwise
clone-on-write then `splice(indexOf(listener), 1)` on the staging list. -/
def unsubscribeTok (tok : Token) (st : StoreSt σ) :
    Except Err (StoreSt σ × Token) :=
  if tok.isSubscribed = false then Except.ok (st, tok)
  else if st.isDispatching then Except.error Err.unsubscribeWhileDispatching
  else
    let st1 := ensureCanMutateNextListeners st
    let idx := indexOfId tok.lid st1.nextListeners
    Except.ok
      ({ st1 with nextListeners := spliceOne st1.nextListeners idx },
       { tok with isSubscribed := false })

/-- `subscribe` from the source: rejected while dispatching, otherwise
push onto the staging list and hand back a live unsubscribe token.  (The
`typeof listener !== 'function'` check cannot fire here because the
argument is typed as a listener.) -/
def subscribeStore (l : Listener) (st : StoreSt σ) :
    Except Err (StoreSt σ × Token) :=
  if st.isDispatching then Except.error Err.subscribeWhileDispatching
  else Except.ok (subscribeEff l st, ⟨l.id, true⟩)

/-- Effect of a listener callback invoking a live unsubscribe closure
during the notification loop (the `isSubscribed` guard of that closure
is modelled by the presence check). -/
def unsubscribeEff (lid : Nat) (st : StoreSt σ) : StoreSt σ :=
  if st.nextListeners.any (fun l => l.id = lid) then
    let st1 := ensureCanMutateNextListeners st
    { st1 with
        nextListeners := spliceOne st1.nextListeners (indexOfId lid st1.nextListeners) }
  else st

/-- Run one call made by a listener callback. -/
def runAct : LAct → StoreSt σ → StoreSt σ
  | LAct.sub nid nscript, st => subscribeEff ⟨nid, nscript⟩ st
  | LAct.unsub lid, st => unsubscribeEff lid st

/-- Run the whole body of one listener callback. -/
def runScript (acts : List LAct) (st : StoreSt σ) : StoreSt σ :=
  acts.foldl (fun s c => runAct c s) st

/-- The notification loop of `dispatch`: iterate the captured snapshot
array in order, invoking each listener.  Because every mutation of the
staging list is preceded by `ensureCanMutateNextListeners`, the snapshot
array is never mutated after capture, so iterating the captured value is
faithful.  Returns the final store and the ordered invoked ids. -/
def notifyListeners : List Listener → StoreSt σ → StoreSt σ × List Nat
  | [], st => (st, [])
  | l :: rest, st =>
    let st1 := runScript l.script st
    let p := notifyListeners rest st1
    (p.1, l.id :: p.2)

/-- The body of `dispatch` after the three argument/phase checks: the
try/finally around the reducer call (on a throw, `isDispatching` is
reset and the error propagates with no state write), then on success the
snapshot assignment `currentListeners = nextListeners` and the
notification loop. -/
def dispatchCore (st : StoreSt σ) (a : RAction) :
    Except Err RAction × StoreSt σ × List Nat :=
  match st.currentReducer st.currentState a with
  | Except.error e => (Except.error e, { st with isDispatching := false }, [])
  | Except.ok s' =>
    let st1 := { st with currentState := s', isDispatching := false }
    let snapshot := st1.nextListeners
    let st2 := { st1 with currentListeners := snapshot, sameRef := true }
    let p := notifyListeners snapshot st2
    (Except.ok a, p.1, p.2)

/-- `dispatch` from the source: reject non-plain actions, actions with
an undefined `type`, and reentrant calls, in that order; otherwise run
the reducer and notify. -/
def dispatch (st : StoreSt σ) (a : RAction) :
    Except Err RAction × StoreSt σ × List Nat :=
  if a.plain = false then (Except.error Err.actionNotPlain, st, [])
  else if a.type = none then (Except.error Err.actionTypeUndefined, st, [])
  else if st.isDispatching then (Except.error Err.dispatchWhileDispatching, st, [])
  else dispatchCore st a

/-- `getState` from the source: rejected while dispatching. -/
def getState (st : StoreSt σ) : Except Err (Option σ) :=
  if st.isDispatching then Except.error Err.getStateWhileDispatching
  else Except.ok st.currentState

/-- Modelled from the spec: the reserved INIT lifecycle discriminant
(the `utils/actionTypes` module is not under `src/`; the spec names two
reserved internal discriminants, INIT and REPLACE). -/
def initActionType : String := "@@redux/INIT"

/-- Modelled from the spec: the reserved REPLACE lifecycle discriminant. -/
def replaceActionType : String := "@@redux/REPLACE"

/-- The INIT lifecycle action dispatched at store construction and used
as a validation probe. -/
def initAction : RAction := ⟨true, some initActionType⟩

/-- The REPLACE lifecycle action dispatched by `replaceReducer`. -/
def replaceAction : RAction := ⟨true, some replaceActionType⟩

/-- `replaceReducer` from the source: swap `currentReducer`, then push
the REPLACE action through the internal `dispatch` closure of the same
store engine. -/
def replaceReducer (next : StoreReducer σ) (st : StoreSt σ) :
    Except Err Unit × StoreSt σ :=
  let st1 := { st with currentReducer := next }
  let p := dispatch st1 replaceAction
  (p.1.map (fun _ => ()), p.2.1)

/-- `createStore` without enhancer: seed the fields (both listener lists
start as the same empty array) and dispatch INIT. -/
def createStore (reducer : StoreReducer σ) (preloaded : Option σ) :
    Except Err RAction × StoreSt σ :=
  let st : StoreSt σ :=
    ⟨reducer, preloaded, [], [], true, false⟩
  let p := dispatch st initAction
  (p.1, p.2.1)

/-! ### compose (src/src/compose.js) -/

/-- `compose(...funcs)` from the source: zero functions give the
identity, one function is returned unchanged, otherwise the list is
reduced left-to-right with `(a, b) => (...args) => a(b(...args))`.
The source is untyped; the chain is modelled at one type. -/
def compose {α : Type} (funcs : List (α → α)) : α → α :=
  match funcs with
  | [] => fun arg => arg
  | [f] => f
  | f :: rest => List.foldl (fun a b => fun args => a (b args)) f rest

/-! ### applyMiddleware (src/src/applyMiddleware.js) -/

/-- The type of the dispatch function of a store, in explicit
state-passing form: the action, the store fields, and the result
(thrown error or returned action), the updated fields, and the invoked
listener ids. -/
def DispatchFn (σ : Type) : Type :=
  RAction → StoreSt σ → Except Err RAction × StoreSt σ × List Nat

/-- The dispatch chain built by `applyMiddleware` (lines 53 and 68 of
the source): apply every middleware to the capability object, then
compose the resulting wrappers and apply them to the base dispatch.
The capability object is abstracted as a type parameter `ι`; the claims
settled here do not exercise it. -/
def applyMiddlewareDispatch {ι D : Type} (mws : List (ι → D → D))
    (api : ι) (base : D) : D :=
  compose (mws.map (fun m => m api)) base

/-- The record of closures a store hands out (the object literal
returned by `createStore`), with each method in state-passing form. -/
structure StoreAPI (σ : Type) where
  dispatchF : DispatchFn σ
  getStateF : StoreSt σ → Except Err (Option σ)
  subscribeF : Listener → StoreSt σ → Except Err (StoreSt σ × Token)
  replaceReducerF : StoreReducer σ → StoreSt σ → Except Err Unit × StoreSt σ

/-- The base store object: every method is the corresponding internal
closure. -/
def baseStoreAPI (σ : Type) : StoreAPI σ :=
  ⟨fun a st => dispatch st a, getState, subscribeStore, replaceReducer⟩

/-- The store returned by the enhanced constructor:
`{ ...store, dispatch }` — a shallow copy of the base store with only
`dispatch` replaced by the composed chain. -/
def applyMiddlewareStore {σ ι : Type}
    (mws : List (ι → DispatchFn σ → DispatchFn σ)) (api : ι)
    (base : StoreAPI σ) : StoreAPI σ :=
  { base with dispatchF := applyMiddlewareDispatch mws api base.dispatchF }

/-! ### combineReducers (src/unnamed/part_001) -/

/-- A sub-reducer as `combineReducers` sees it: pure on its slice, may
receive an absent slice and may return `undefined` (`none`). -/
def SubReducer (σ : Type) : Type :=
  Option σ → RAction → Option σ

/-- A plain action with the given type string, as built at the two
probe sites of `assertReducerShape`. -/
def probeAction (t : String) : RAction := ⟨true, some t⟩

/-- `assertReducerShape` from the source: for each key in order, probe
the sub-reducer with an absent state and the INIT action, then with an
absent state and a freshly generated unguessable type.  The random type
generation is modelled by the oracle `probeFor`, giving the generated
type for each key.  Returns the first error instead of throwing. -/
def assertReducerShape (probeFor : String → String) :
    List (String × SubReducer σ) → Option Err
  | [] => none
  | (k, r) :: rest =>
    if (r none initAction).isNone then some (Err.reducerUndefinedOnInit k)
    else if (r none (probeAction (probeFor k))).isNone then
      some (Err.reducerUndefinedOnProbe k)
    else assertReducerShape probeFor rest

/-- The closure state captured by the composite reducer returned from
`combineReducers`: the filtered reducer mapping and the captured (not
yet thrown) shape assertion error. -/
structure Composite (σ : Type) where
  finalReducers : List (String × SubReducer σ)
  shapeErr : Option Err

/-- `combineReducers` from the source: keep only entries whose value is
a function (`none` models a non-function entry, which in development
only draws a warning), then run the shape assertion, capturing its
error for later instead of throwing. -/
def combineReducers (probeFor : String → String)
    (reducers : List (String × Option (SubReducer σ))) : Composite σ :=
  let finalReducers :=
    reducers.filterMap (fun p => (p.2).map (fun r => (p.1, r)))
  { finalReducers := finalReducers,
    shapeErr := assertReducerShape probeFor finalReducers }

/-- The per-key loop of the composite reducer: for every known key in
order, compute `nextStateForKey = reducer(state[key], action)`, fail on
`undefined`, record the slice, and accumulate
`hasChanged || nextStateForKey !== previousStateForKey` (value
inequality modelling reference inequality).  Returns the assembled
`nextState` and the `hasChanged` flag. -/
def combineSlices [DecidableEq σ] :
    List (String × SubReducer σ) → List (String × σ) → RAction →
    Except Err (List (String × σ) × Bool)
  | [], _, _ => Except.ok ([], false)
  | (k, r) :: rest, state, a =>
    let prev := state.lookup k
    match r prev a with
    | none => Except.error (Err.sliceUndefined k a.type)
    | some next =>
      match combineSlices rest state a with
      | Except.error e => Except.error e
      | Except.ok (ns, hc) =>
        Except.ok ((k, next) :: ns, hc || decide (some next ≠ prev))

/-- The `combination` closure returned by `combineReducers`: rethrow the
captured shape assertion error on every call, otherwise run the per-key
loop and return the untouched input state object when no slice changed,
the newly assembled record otherwise.  (The development-only shape
warning changes no control flow and is omitted.) -/
def combination [DecidableEq σ] (c : Composite σ)
    (state : List (String × σ)) (a : RAction) :
    Except Err (List (String × σ)) :=
  match c.shapeErr with
  | some e => Except.error e
  | none =>
    match combineSlices c.finalReducers state a with
    | Except.error e => Except.error e
    | Except.ok (ns, hc) => Except.ok (if hc then ns else state)

/-- The record the per-key loop assembles, written directly: every known
key mapped to its computed slice (defined entries only). -/
def assembledSlices (frs : List (String × SubReducer σ))
    (state : List (String × σ)) (a : RAction) : List (String × σ) :=
  frs.filterMap (fun p => (p.2 (state.lookup p.1) a).map (fun v => (p.1, v)))

/-- The change flag the per-key loop accumulates, written directly. -/
def hasChangedB [DecidableEq σ] (frs : List (String × SubReducer σ))
    (state : List (String × σ)) (a : RAction) : Bool :=
  frs.any (fun p => decide (p.2 (state.lookup p.1) a ≠ state.lookup p.1))

/-- Every sub-reducer handed its slice of `state` returns that very
slice (reference identity, modelled as value identity). -/
def allSlicesUnchanged (frs : List (String × SubReducer σ))
    (state : List (String × σ)) (a : RAction) : Prop :=
  ∀ p ∈ frs, p.2 (state.lookup p.1) a = state.lookup p.1

/-! ### Dispatch with fully general listener callbacks

The `Listener` scripts above cover subscribe/unsubscribe effects, which
is what the notification-ordering claims need.  For the error
characterization of `dispatch` the callbacks must be fully general: a
JavaScript listener body may mutate the store arbitrarily through the
store API (including nested dispatches, legal because the flag is
already reset) and may throw, and the loop at the source has no
try/catch around `listener()`.  The following second embedding of the
same dispatch source gives each callback id an arbitrary semantics. -/

/-- The store as it stands when the reducer phase of `dispatch` has
completed with result `s'`: the finally block has reset the flag, the
result is assigned, and the snapshot `currentListeners = nextListeners`
is taken. -/
def afterReduce (st : StoreSt σ) (s' : Option σ) : StoreSt σ :=
  { st with currentState := s', isDispatching := false,
            currentListeners := st.nextListeners, sameRef := true }

/-- Fully general semantics of listener callbacks, by callback id: the
invoked callback transforms the store and may end by throwing, leaving
the fields as it last wrote them. -/
def ListenerBeh (σ : Type) : Type :=
  Nat → StoreSt σ → Option Err × StoreSt σ

/-- The notification loop of `dispatch` over the captured snapshot with
fully general callbacks: the first callback that throws aborts the loop
and its error propagates; the ids invoked so far are returned
alongside. -/
def notifyListenersX (beh : ListenerBeh σ) :
    List Listener → StoreSt σ → Option Err × StoreSt σ × List Nat
  | [], st => (none, st, [])
  | l :: rest, st =>
    match beh l.id st with
    | (some e, st1) => (some e, st1, [l.id])
    | (none, st1) =>
      let p := notifyListenersX beh rest st1
      (p.1, p.2.1, l.id :: p.2.2)

/-- `dispatch` from the source with the fully general listener
semantics `beh`: the three argument/phase checks in source order, the
try/finally around the reducer call, then the notification loop, whose
first listener throw propagates out of dispatch after the state was
already assigned. -/
def dispatchX (beh : ListenerBeh σ) (st : StoreSt σ) (a : RAction) :
    Except Err RAction × StoreSt σ × List Nat :=
  if a.plain = false then (Except.error Err.actionNotPlain, st, [])
  else if a.type = none then (Except.error Err.actionTypeUndefined, st, [])
  else if st.isDispatching then
    (Except.error Err.dispatchWhileDispatching, st, [])
  else
    match st.currentReducer st.currentState a with
    | Except.error e => (Except.error e, { st with isDispatching := false }, [])
    | Except.ok s' =>
      let p := notifyListenersX beh st.nextListeners (afterReduce st s')
      match p.1 with
      | some e => (Except.error e, p.2.1, p.2.2)
      | none => (Except.ok a, p.2.1, p.2.2)

/-! ### Concrete instances used by witness theorems -/

/-- A reducer that increments a counter state. -/
def wReducerOk : StoreReducer Nat := fun s _ => Except.ok (some (s.getD 0 + 1))

/-- A reducer that returns its state unchanged. -/
def wReducerId : StoreReducer Nat := fun s _ => Except.ok s

/-- A reducer that always throws. -/
def wReducerBad : StoreReducer Nat := fun _ _ => Except.error (Err.reducerRaised 7)

/-- A plain action with type `X`. -/
def wActionX : RAction := ⟨true, some "X"⟩

/-- A plain action with type `B`. -/
def wActionB : RAction := ⟨true, some "B"⟩

/-- An idle store whose reducer always throws. -/
def wStoreBad : StoreSt Nat := ⟨wReducerBad, some 5, [], [], true, false⟩

/-- An idle store whose reducer increments. -/
def wStoreOk : StoreSt Nat := ⟨wReducerOk, some 5, [], [], true, false⟩

/-- A listener that subscribes a fresh listener (id 3) when invoked. -/
def wListener1 : Listener := ⟨1, [LAct.sub 3 []]⟩

/-- A listener that does nothing when invoked. -/
def wListener2 : Listener := ⟨2, []⟩

/-- An idle store with two registered listeners, the first of which
subscribes a third one during notification. -/
def wStoreL : StoreSt Nat :=
  ⟨wReducerId, some 0, [wListener1, wListener2], [wListener1, wListener2], true, false⟩

/-- An idle store whose staging list registers callback 5 twice (around
callback 7), for the unsubscribe-token claim. -/
def wStoreU : StoreSt Nat :=
  ⟨wReducerOk, some 0, [], [⟨5, []⟩, ⟨7, []⟩, ⟨5, []⟩], false, false⟩

/-- Slice reducer for key `a`: initial state 10, otherwise identity. -/
def wRa : SubReducer Nat := fun s _ => some (s.getD 10)

/-- Slice reducer for key `b`: initial state 20, value 99 on action `B`,
otherwise identity. -/
def wRb : SubReducer Nat := fun s a =>
  if a.type = some "B" then some 99 else some (s.getD 20)

/-- A healthy composite over keys `a` and `b`. -/
def wComb : Composite Nat :=
  combineReducers (fun _ => "p") [("a", some wRa), ("b", some wRb)]

/-- A slice reducer that always returns `undefined`. -/
def wBadSub : SubReducer Nat := fun _ _ => none

/-- A composite built over the always-`undefined` slice reducer. -/
def wBadComb : Composite Nat :=
  combineReducers (fun _ => "p") [("k", some wBadSub)]

/-- A composite state carrying both known slices. -/
def wStateAB : List (String × Nat) := [("a", 1), ("b", 2)]

/-- A composite state carrying both known slices and an unknown key `z`. -/
def wStateABZ : List (String × Nat) := [("a", 1), ("b", 2), ("z", 3)]

/-- A logging dispatch value: trace of middleware names plus a result. -/
def WDisp : Type := Nat → List String × Nat

/-- A selectively forwarding middleware: it swallows action `0` without
invoking `next`, and forwards every other action after logging. -/
def wSelMw : Unit → WDisp → WDisp :=
  fun _ next => fun a =>
    if a = 0 then (["m1-stop"], a) else ("m1" :: (next a).1, (next a).2)

/-- A middleware that logs its name before forwarding to `next`. -/
def wLogMw : Unit → WDisp → WDisp :=
  fun _ next => fun a => ("m2" :: (next a).1, (next a).2)

/-- A base dispatch for the middleware witness. -/
def wBaseD : WDisp := fun a => ([], a + 1)

/-- A second base dispatch, to show the early return ignores the base. -/
def wBaseD2 : WDisp := fun a => ([], a + 2)

/-- Listener behavior for the dispatch-characterization witness:
callback 9 throws, every other callback returns with no effect. -/
def wBehRaise : ListenerBeh Nat :=
  fun i st => if i = 9 then (some (Err.reducerRaised 3), st) else (none, st)

/-- An idle store registering the throwing callback 9. -/
def wStoreLX : StoreSt Nat :=
  ⟨wReducerOk, some 0, [⟨9, []⟩], [⟨9, []⟩], true, false⟩

/-! ### Helper lemmas: store engine -/

/-- The listener-mutating calls leave the reducer, the state, the active
snapshot, and the phase flag untouched; only the staging list and the
aliasing flag move. -/
def coreEq (s t : StoreSt σ) : Prop :=
  s.currentReducer = t.currentReducer ∧ s.currentState = t.currentState ∧
  s.currentListeners = t.currentListeners ∧ s.isDispatching = t.isDispatching

theorem coreEq_refl (s : StoreSt σ) : coreEq s s := ⟨rfl, rfl, rfl, rfl⟩

theorem coreEq_trans {s t u : StoreSt σ} (h1 : coreEq s t) (h2 : coreEq t u) :
    coreEq s u :=
  ⟨h1.1.trans h2.1, h1.2.1.trans h2.2.1, h1.2.2.1.trans h2.2.2.1,
   h1.2.2.2.trans h2.2.2.2⟩

theorem coreEq_ensure (st : StoreSt σ) :
    coreEq (ensureCanMutateNextListeners st) st := by
  unfold ensureCanMutateNextListeners
  split <;> exact ⟨rfl, rfl, rfl, rfl⟩

theorem coreEq_subscribeEff (l : Listener) (st : StoreSt σ) :
    coreEq (subscribeEff l st) st := by
  unfold subscribeEff
  exact coreEq_trans (coreEq_refl _) (coreEq_ensure st)

theorem coreEq_unsubscribeEff (lid : Nat) (st : StoreSt σ) :
    coreEq (unsubscribeEff lid st) st := by
  unfold unsubscribeEff
  split
  · exact coreEq_trans (coreEq_refl _) (coreEq_ensure st)
  · exact coreEq_refl st

theorem coreEq_runAct (c : LAct) (st : StoreSt σ) : coreEq (runAct c st) st := by
  cases c with
  | sub nid nscript => exact coreEq_subscribeEff _ st
  | unsub lid => exact coreEq_unsubscribeEff lid st

theorem coreEq_runScript (acts : List LAct) (st : StoreSt σ) :
    coreEq (runScript acts st) st := by
  induction acts generalizing st with
  | nil => exact coreEq_refl st
  | cons c rest ih =>
    exact coreEq_trans (ih (runAct c st)) (coreEq_runAct c st)

theorem coreEq_notifyListeners (ls : List Listener) (st : StoreSt σ) :
    coreEq (notifyListeners ls st).1 st := by
  induction ls generalizing st with
  | nil => exact coreEq_refl st
  | cons l rest ih =>
    exact coreEq_trans (ih (runScript l.script st)) (coreEq_runScript l.script st)

theorem notifyListeners_trace (ls : List Listener) (st : StoreSt σ) :
    (notifyListeners ls st).2 = ls.map (fun l => l.id) := by
  induction ls generalizing st with
  | nil => rfl
  | cons l rest ih => simp [notifyListeners, ih]

theorem setIsDispatching_self (st : StoreSt σ) (h : st.isDispatching = false) :
    { st with isDispatching := false } = st := by
  cases st with
  | mk r s cl nl sr d =>
    simp only at h
    simp [h]

/-- The full shape of a successful dispatch. -/
theorem dispatch_ok_shape (st : StoreSt σ) (a : RAction) (s' : Option σ)
    (hplain : a.plain = true) (htype : a.type ≠ none)
    (hidle : st.isDispatching = false)
    (hok : st.currentReducer st.currentState a = Except.ok s') :
    dispatch st a =
      (Except.ok a,
       (notifyListeners st.nextListeners
          { st with currentState := s', isDispatching := false,
                    currentListeners := st.nextListeners, sameRef := true }).1,
       st.nextListeners.map (fun l => l.id)) := by
  unfold dispatch dispatchCore
  simp [hplain, htype, hidle, hok, notifyListeners_trace]

/-- The full shape of a dispatch whose reducer throws. -/
theorem dispatch_err_shape (st : StoreSt σ) (a : RAction) (e : Err)
    (hplain : a.plain = true) (htype : a.type ≠ none)
    (hidle : st.isDispatching = false)
    (herr : st.currentReducer st.currentState a = Except.error e) :
    dispatch st a = (Except.error e, st, []) := by
  unfold dispatch dispatchCore
  simp [hplain, htype, hidle, herr, setIsDispatching_self st hidle]

/-! ### Claim theorems -/

/-- C1: if the reducer invoked by `dispatch(action)` throws (including a
reentrancy error raised by a nested dispatch inside the reducer), the
Dispatching flag is reset to Idle before the error propagates, the state
is exactly what it was before the dispatch began (the whole store is
unchanged), and a subsequent `getState` or `dispatch` on the same store
is not rejected for reentrancy (it proceeds past every argument/phase
check). -/
theorem dispatch_reducer_failure_resets_flag (st : StoreSt σ) (a : RAction)
    (e : Err) (hplain : a.plain = true) (htype : a.type ≠ none)
    (hidle : st.isDispatching = false)
    (herr : st.currentReducer st.currentState a = Except.error e) :
    dispatch st a = (Except.error e, st, [])
    ∧ (dispatch st a).2.1.isDispatching = false
    ∧ getState (dispatch st a).2.1 = Except.ok st.currentState
    ∧ ∀ a' : RAction, a'.plain = true → a'.type ≠ none →
        dispatch (dispatch st a).2.1 a' = dispatchCore (dispatch st a).2.1 a' := by
  have h1 := dispatch_err_shape st a e hplain htype hidle herr
  refine ⟨h1, ?_, ?_, ?_⟩
  · rw [h1]; exact hidle
  · rw [h1]; unfold getState; simp [hidle]
  · intro a' hp' ht'
    rw [h1]
    unfold dispatch
    simp [hp', ht', hidle]

/-- C1 witness: the always-throwing store at a concrete action. -/
theorem dispatch_reducer_failure_resets_flag_w :
    dispatch wStoreBad wActionX = (Except.error (Err.reducerRaised 7), wStoreBad, [])
    ∧ getState (dispatch wStoreBad wActionX).2.1 = Except.ok (some 5)
    ∧ dispatch (dispatch wStoreBad wActionX).2.1 wActionX
        = dispatchCore (dispatch wStoreBad wActionX).2.1 wActionX := by
  have h := dispatch_reducer_failure_resets_flag wStoreBad wActionX
    (Err.reducerRaised 7) rfl (by simp [wActionX]) rfl rfl
  exact ⟨h.1, h.2.2.1, h.2.2.2 wActionX rfl (by simp [wActionX])⟩

/-- C2: a successful dispatch invokes exactly the listeners in the
snapshot taken at that dispatch (the staging list at snapshot time), in
registration order, whatever the invoked callbacks do to the
subscription set; the active snapshot becomes that staging list; and a
subsequent successful dispatch invokes exactly its own (possibly
updated) staging list, so subscribe and unsubscribe calls made during
the notification loop affect only future dispatches. -/
theorem dispatch_notifies_snapshot (st : StoreSt σ) (a : RAction)
    (s' : Option σ) (hplain : a.plain = true) (htype : a.type ≠ none)
    (hidle : st.isDispatching = false)
    (hok : st.currentReducer st.currentState a = Except.ok s') :
    (dispatch st a).2.2 = st.nextListeners.map (fun l => l.id)
    ∧ (dispatch st a).2.1.currentListeners = st.nextListeners
    ∧ (dispatch st a).2.1.isDispatching = false
    ∧ ∀ (a' : RAction) (s'' : Option σ), a'.plain = true → a'.type ≠ none →
        st.currentReducer s' a' = Except.ok s'' →
        (dispatch (dispatch st a).2.1 a').2.2
          = (dispatch st a).2.1.nextListeners.map (fun l => l.id) := by
  have h1 := dispatch_ok_shape st a s' hplain htype hidle hok
  have hcore := coreEq_notifyListeners st.nextListeners
    { st with currentState := s', isDispatching := false,
              currentListeners := st.nextListeners, sameRef := true }
  refine ⟨by rw [h1], ?_, ?_, ?_⟩
  · rw [h1]; exact hcore.2.2.1
  · rw [h1]; exact hcore.2.2.2
  · intro a' s'' hp' ht' hok'
    have hred : (dispatch st a).2.1.currentReducer
        ((dispatch st a).2.1.currentState) a' = Except.ok s'' := by
      rw [h1]
      rw [hcore.1, hcore.2.1]
      exact hok'
    have h2 := dispatch_ok_shape (dispatch st a).2.1 a' s'' hp' ht'
      (by rw [h1]; exact hcore.2.2.2) hred
    rw [h2]

/-- C2 witness: listeners 1 and 2 are registered; listener 1 subscribes
listener 3 during the notification loop; the dispatch in flight invokes
exactly ids 1 and 2, and the next dispatch invokes 1, 2 and 3. -/
theorem dispatch_notifies_snapshot_w :
    (dispatch wStoreL wActionX).2.2 = [1, 2]
    ∧ (dispatch (dispatch wStoreL wActionX).2.1 wActionX).2.2 = [1, 2, 3] := by
  have h := dispatch_notifies_snapshot wStoreL wActionX (some 0) rfl
    (by simp [wActionX]) rfl rfl
  refine ⟨h.1.trans (by rfl), ?_⟩
  have h2 := h.2.2.2 wActionX (some 0) rfl (by simp [wActionX]) rfl
  exact h2.trans (by rfl)

/-- C7 counterexample: at a store whose reducer throws, dispatch throws
even though the action is a plain record with a defined type and the
store is Idle — so the three listed conditions are not the only ways
dispatch can throw. -/
theorem dispatch_throws_on_reducer_error_cx :
    (wActionX.plain = true ∧ wActionX.type ≠ none
      ∧ wStoreBad.isDispatching = false)
    ∧ (dispatch wStoreBad wActionX).1 = Except.error (Err.reducerRaised 7) := by
  exact ⟨⟨rfl, by simp [wActionX], rfl⟩, rfl⟩

/-- C7 amended: with listener callbacks given fully general semantics
(they may mutate the store arbitrarily and may throw), dispatch throws
exactly when the action is not a plain record, or its type is
undefined, or the store is already Dispatching, or the invoked reducer
itself throws, or one of the synchronously notified listeners throws;
whenever dispatch returns without throwing it returns the very same
action value that was passed in; and when the reducer phase completes,
its result is assigned to the current state before notification
begins, the rest of the dispatch being exactly the notification loop
run from that store. -/
theorem dispatch_error_characterization (beh : ListenerBeh σ)
    (st : StoreSt σ) (a : RAction) :
    ((∃ e, (dispatchX beh st a).1 = Except.error e) ↔
      (a.plain = false ∨ a.type = none ∨ st.isDispatching = true
        ∨ (∃ e, st.currentReducer st.currentState a = Except.error e)
        ∨ (∃ e s', st.currentReducer st.currentState a = Except.ok s'
            ∧ (notifyListenersX beh st.nextListeners (afterReduce st s')).1
                = some e)))
    ∧ (∀ a', (dispatchX beh st a).1 = Except.ok a' → a' = a)
    ∧ (∀ s', a.plain = true → a.type ≠ none → st.isDispatching = false →
        st.currentReducer st.currentState a = Except.ok s' →
        (afterReduce st s').currentState = s'
        ∧ (dispatchX beh st a).2.1
            = (notifyListenersX beh st.nextListeners (afterReduce st s')).2.1
        ∧ (dispatchX beh st a).2.2
            = (notifyListenersX beh st.nextListeners (afterReduce st s')).2.2) := by
  by_cases hp : a.plain = false
  · refine ⟨by simp [dispatchX, hp], by simp [dispatchX, hp], ?_⟩
    intro s' hp' _ _ _
    exact absurd hp (by simp [hp'])
  · by_cases ht : a.type = none
    · refine ⟨by simp [dispatchX, hp, ht], by simp [dispatchX, hp, ht], ?_⟩
      intro s' _ ht' _ _
      exact absurd ht ht'
    · by_cases hd : st.isDispatching = true
      · refine ⟨by simp [dispatchX, hp, ht, hd], by simp [dispatchX, hp, ht, hd], ?_⟩
        intro s' _ _ hd' _
        rw [hd'] at hd
        exact absurd hd (by simp)
      · rcases hred : st.currentReducer st.currentState a with e | s'
        · refine ⟨?_, ?_, ?_⟩
          · constructor
            · intro _
              exact Or.inr (Or.inr (Or.inr (Or.inl ⟨e, rfl⟩)))
            · intro _
              exact ⟨e, by simp [dispatchX, hp, ht, hd, hred]⟩
          · intro a' ha'
            simp [dispatchX, hp, ht, hd, hred] at ha'
          · intro s' _ _ _ hok
            simp at hok
        · rcases hn : (notifyListenersX beh st.nextListeners
              (afterReduce st s')).1 with _ | e
          · refine ⟨?_, ?_, ?_⟩
            · simp [dispatchX, hp, ht, hd, hred, hn]
            · intro a' ha'
              simp [dispatchX, hp, ht, hd, hred, hn] at ha'
              exact ha'.symm
            · intro s'' _ _ _ hok
              obtain rfl : s' = s'' := by injection hok
              exact ⟨rfl, by simp [dispatchX, hp, ht, hd, hred, hn],
                by simp [dispatchX, hp, ht, hd, hred, hn]⟩
          · refine ⟨?_, ?_, ?_⟩
            · constructor
              · intro _
                exact Or.inr (Or.inr (Or.inr (Or.inr ⟨e, s', rfl, hn⟩)))
              · intro _
                exact ⟨e, by simp [dispatchX, hp, ht, hd, hred, hn]⟩
            · intro a' ha'
              simp [dispatchX, hp, ht, hd, hred, hn] at ha'
            · intro s'' _ _ _ hok
              obtain rfl : s' = s'' := by injection hok
              exact ⟨rfl, by simp [dispatchX, hp, ht, hd, hred, hn],
                by simp [dispatchX, hp, ht, hd, hred, hn]⟩

/-- C7 amended witness: on a store registering a throwing listener
(callback 9), a plain typed action with a succeeding reducer still ends
in a throw coming from the notification loop, the state having already
been assigned the reducer result. -/
theorem dispatch_error_characterization_w :
    (afterReduce wStoreLX (some 1)).currentState = some 1
    ∧ (dispatchX wBehRaise wStoreLX wActionX).2.1
        = (notifyListenersX wBehRaise wStoreLX.nextListeners
            (afterReduce wStoreLX (some 1))).2.1
    ∧ (dispatchX wBehRaise wStoreLX wActionX).1
        = Except.error (Err.reducerRaised 3)
    ∧ (dispatchX wBehRaise wStoreLX wActionX).2.1.currentState = some 1 := by
  have h := (dispatch_error_characterization wBehRaise wStoreLX wActionX).2.2
    (some 1) rfl (by simp [wActionX]) rfl rfl
  exact ⟨h.1, h.2.1, rfl, rfl⟩

/-! ### Helper lemmas: unsubscribe token -/

theorem indexOfId_mem_spec (lid : Nat) :
    ∀ ls : List Listener, lid ∈ ls.map (fun l => l.id) →
      ∃ n : Nat, indexOfId lid ls = (n : Int) ∧ n < ls.length := by
  intro ls
  induction ls with
  | nil => intro h; simp at h
  | cons l rest ih =>
    intro h
    by_cases he : l.id = lid
    · exact ⟨0, by simp [indexOfId, he], by simp⟩
    · have hmem : lid ∈ rest.map (fun l => l.id) := by
        rcases (List.mem_cons).1 h with h' | h'
        · exact absurd h'.symm he
        · exact h'
      obtain ⟨n, hn, hlt⟩ := ih hmem
      refine ⟨n + 1, ?_, by simp; omega⟩
      have hne : (n : Int) ≠ -1 := by omega
      simp [indexOfId, he, hn, hne]

theorem spliceOne_natCast (ls : List Listener) (n : Nat) (hle : n ≤ ls.length) :
    spliceOne ls (n : Int) = ls.take n ++ ls.drop (n + 1) := by
  unfold spliceOne
  have h0 : ¬ ((n : Int) < 0) := by omega
  have hmin : min (n : Int) (ls.length : Int) = (n : Int) := by omega
  simp [h0, hmin]

theorem spliceOne_indexOfId (lid : Nat) :
    ∀ ls : List Listener, lid ∈ ls.map (fun l => l.id) →
      spliceOne ls (indexOfId lid ls) = ls.eraseP (fun l => l.id == lid) := by
  intro ls
  induction ls with
  | nil => intro h; simp at h
  | cons l rest ih =>
    intro h
    by_cases he : l.id = lid
    · have hidx : indexOfId lid (l :: rest) = ((0 : Nat) : Int) := by
        simp [indexOfId, he]
      rw [hidx, spliceOne_natCast (l :: rest) 0 (by simp)]
      simp [List.eraseP_cons_of_pos, he]
    · have hmem : lid ∈ rest.map (fun l => l.id) := by
        rcases (List.mem_cons).1 h with h' | h'
        · exact absurd h'.symm he
        · exact h'
      obtain ⟨n, hn, hlt⟩ := indexOfId_mem_spec lid rest hmem
      have hne : (n : Int) ≠ -1 := by omega
      have hidx : indexOfId lid (l :: rest) = (((n + 1 : Nat)) : Int) := by
        simp [indexOfId, he, hn, hne]
      rw [hidx, spliceOne_natCast (l :: rest) (n + 1) (by simp; omega)]
      have hrec := ih hmem
      rw [hn, spliceOne_natCast rest n (by omega)] at hrec
      simp only [List.take_succ_cons, List.drop_succ_cons]
      rw [List.eraseP_cons_of_neg (by simp [he])]
      rw [List.cons_append, hrec]

theorem map_id_eraseP (lid : Nat) (ls : List Listener) :
    (ls.eraseP (fun l => l.id == lid)).map (fun l => l.id)
      = (ls.map (fun l => l.id)).erase lid := by
  induction ls with
  | nil => rfl
  | cons l rest ih =>
    by_cases he : l.id = lid
    · rw [List.eraseP_cons_of_pos (by simp [he])]
      simp [he]
    · rw [List.eraseP_cons_of_neg (by simp [he])]
      simp only [List.map_cons]
      rw [List.erase_cons_tail (by simp [he]), ih]

theorem ensure_nextListeners (st : StoreSt σ)
    (hinv : st.sameRef = true → st.nextListeners = st.currentListeners) :
    (ensureCanMutateNextListeners st).nextListeners = st.nextListeners := by
  by_cases h : st.sameRef = true
  · simp [ensureCanMutateNextListeners, h]
    exact (hinv h).symm
  · simp [ensureCanMutateNextListeners, h]

/-- C8: first call of a live unsubscribe closure in the Idle phase
removes exactly one registration of its callback from the staging list
(the count for that callback id drops by one, every other id keeps its
count, and the list is the first-occurrence erasure), clears the
captured flag, and every later call of the closure is a no-op that does
not throw and does not remove anything. -/
theorem unsubscribe_token_spec (st : StoreSt σ) (tok : Token)
    (hsub : tok.isSubscribed = true) (hidle : st.isDispatching = false)
    (hinv : st.sameRef = true → st.nextListeners = st.currentListeners)
    (hmem : tok.lid ∈ st.nextListeners.map (fun l => l.id)) :
    unsubscribeTok tok st =
      Except.ok
        ({ ensureCanMutateNextListeners st with
             nextListeners := st.nextListeners.eraseP (fun l => l.id == tok.lid) },
         { lid := tok.lid, isSubscribed := false })
    ∧ ((st.nextListeners.eraseP (fun l => l.id == tok.lid)).map
          (fun l => l.id)).count tok.lid
        = (st.nextListeners.map (fun l => l.id)).count tok.lid - 1
    ∧ (∀ j, j ≠ tok.lid →
        ((st.nextListeners.eraseP (fun l => l.id == tok.lid)).map
            (fun l => l.id)).count j
          = (st.nextListeners.map (fun l => l.id)).count j)
    ∧ ∀ st2 : StoreSt σ,
        unsubscribeTok { lid := tok.lid, isSubscribed := false } st2
          = Except.ok (st2, { lid := tok.lid, isSubscribed := false }) := by
  have hnl := ensure_nextListeners st hinv
  refine ⟨?_, ?_, ?_, fun st2 => rfl⟩
  · unfold unsubscribeTok
    simp only [hsub, hidle]
    simp only [Bool.true_eq_false, if_false, Bool.false_eq_true, if_false]
    rw [hnl]
    rw [spliceOne_indexOfId tok.lid st.nextListeners hmem]
  · rw [map_id_eraseP]
    exact List.count_erase_self tok.lid (st.nextListeners.map (fun l => l.id))
  · intro j hj
    rw [map_id_eraseP]
    exact List.count_erase_of_ne hj (st.nextListeners.map (fun l => l.id))

/-- C8 witness: callback 5 is registered twice around callback 7; its
unsubscribe closure removes the first registration, and a second call of
the exhausted closure leaves the store untouched. -/
theorem unsubscribe_token_spec_w :
    unsubscribeTok (⟨5, true⟩ : Token) wStoreU =
      Except.ok
        ({ ensureCanMutateNextListeners wStoreU with
             nextListeners := wStoreU.nextListeners.eraseP (fun l => l.id == 5) },
         { lid := 5, isSubscribed := false })
    ∧ unsubscribeTok { lid := 5, isSubscribed := false } wStoreU
        = Except.ok (wStoreU, { lid := 5, isSubscribed := false }) := by
  have h := unsubscribe_token_spec wStoreU ⟨5, true⟩ rfl rfl
    (by intro hx; simp [wStoreU] at hx) (by simp [wStoreU])
  exact ⟨h.1, h.2.2.2 wStoreU⟩

/-! ### Helper lemmas: compose and applyMiddleware -/

theorem compose_foldl_apply {α : Type} (rest : List (α → α)) (f : α → α)
    (x : α) :
    (List.foldl (fun a b => fun args => a (b args)) f rest) x
      = f (rest.foldr (fun g r => g r) x) := by
  induction rest generalizing f with
  | nil => rfl
  | cons b rest ih =>
    simp only [List.foldl_cons, List.foldr_cons]
    rw [ih]

theorem compose_apply {α : Type} (l : List (α → α)) (x : α) :
    compose l x = l.foldr (fun g r => g r) x := by
  match l with
  | [] => rfl
  | [f] => rfl
  | f :: g :: rest =>
    show (List.foldl (fun a b => fun args => a (b args)) f (g :: rest)) x = _
    rw [compose_foldl_apply]
    rfl

theorem applyMiddlewareDispatch_eq_foldr {ι D : Type} (mws : List (ι → D → D))
    (api : ι) (base : D) :
    applyMiddlewareDispatch mws api base
      = mws.foldr (fun m acc => m api acc) base := by
  unfold applyMiddlewareDispatch
  rw [compose_apply]
  induction mws with
  | nil => rfl
  | cons m rest ih => simp only [List.map_cons, List.foldr_cons, ih]

/-- C5: the dispatch assembled by `applyMiddleware` is the chain of
wrappers applied right-to-left to the base dispatch, so the first
middleware in the argument list is the outermost wrapper and the last
is innermost; splitting the chain anywhere shows that the `next`
function any middleware wraps is exactly the composed dispatch of
everything inner to it; and when a middleware at the head of (the
remainder of) the chain does not invoke its `next` for one particular
action — it may freely forward other actions — the assembled dispatch
at that action is independent of every inner middleware and of the base
dispatch: none of them runs for that action. -/
theorem applyMiddleware_compose_order {ι : Type} (api : ι) :
    (∀ (D : Type) (mws : List (ι → D → D)) (base : D),
        applyMiddlewareDispatch mws api base
          = mws.foldr (fun m acc => m api acc) base)
    ∧ (∀ (D : Type) (outer inner : List (ι → D → D)) (base : D),
        applyMiddlewareDispatch (outer ++ inner) api base
          = applyMiddlewareDispatch outer api
              (applyMiddlewareDispatch inner api base))
    ∧ ∀ (A R : Type) (m1 : ι → (A → R) → (A → R))
        (rest rest' : List (ι → (A → R) → (A → R))) (base base' : A → R)
        (a : A),
        (∀ n n' : A → R, m1 api n a = m1 api n' a) →
        applyMiddlewareDispatch (m1 :: rest) api base a
          = applyMiddlewareDispatch (m1 :: rest') api base' a := by
  refine ⟨fun D mws base => applyMiddlewareDispatch_eq_foldr mws api base,
    ?_, ?_⟩
  · intro D outer inner base
    rw [applyMiddlewareDispatch_eq_foldr, applyMiddlewareDispatch_eq_foldr,
      applyMiddlewareDispatch_eq_foldr]
    exact List.foldr_append _ _ _ _
  · intro A R m1 rest rest' base base' a hconst
    rw [applyMiddlewareDispatch_eq_foldr, applyMiddlewareDispatch_eq_foldr]
    simp only [List.foldr_cons]
    exact hconst _ _

/-- C5 witness: a selectively forwarding outer middleware (it swallows
action 0 but forwards action 1) makes the assembled dispatch at action
0 independent of the inner logging middleware and of the base dispatch,
while at action 1 the whole chain runs right-to-left. -/
theorem applyMiddleware_compose_order_w :
    applyMiddlewareDispatch [wSelMw, wLogMw] () wBaseD 0
      = applyMiddlewareDispatch [wSelMw] () wBaseD2 0
    ∧ applyMiddlewareDispatch [wSelMw, wLogMw] () wBaseD 1
        = (["m1", "m2"], 2) := by
  constructor
  · exact (applyMiddleware_compose_order ()).2.2 Nat (List String × Nat)
      wSelMw [wLogMw] [] wBaseD wBaseD2 0 (fun n n' => rfl)
  · rfl

/-- C6: `compose()` is the identity, `compose(f)` is `f` unchanged, and
`compose(f, g, h)(x) = f(g(h(x)))` — the last-listed function receives
the original argument and evaluation proceeds right-to-left. -/
theorem compose_identities {α : Type} (f g h : α → α) (x : α) :
    compose ([] : List (α → α)) x = x
    ∧ compose [f] = f
    ∧ compose [f, g, h] x = f (g (h x)) :=
  ⟨rfl, rfl, rfl⟩

/-- C10: the store built by the `applyMiddleware` enhancer keeps the
base store's `replaceReducer` for every middleware chain (the shallow
copy replaces only `dispatch`), and that `replaceReducer` pushes the
REPLACE lifecycle action through the internal `dispatch` closure of the
store engine — so no middleware in the chain observes the REPLACE
action. -/
theorem applyMiddleware_replaceReducer_internal {σ ι : Type}
    (mws : List (ι → DispatchFn σ → DispatchFn σ)) (api : ι) :
    (applyMiddlewareStore mws api (baseStoreAPI σ)).replaceReducerF
      = (baseStoreAPI σ).replaceReducerF
    ∧ ∀ (next : StoreReducer σ) (st : StoreSt σ),
        (applyMiddlewareStore mws api (baseStoreAPI σ)).replaceReducerF next st
          = ((dispatch { st with currentReducer := next } replaceAction).1.map
               (fun _ => ()),
             (dispatch { st with currentReducer := next } replaceAction).2.1) :=
  ⟨rfl, fun _ _ => rfl⟩

/-! ### Helper lemmas: combineReducers -/

theorem hasChangedB_false_iff [DecidableEq σ]
    (frs : List (String × SubReducer σ)) (state : List (String × σ))
    (a : RAction) :
    hasChangedB frs state a = false ↔ allSlicesUnchanged frs state a := by
  unfold hasChangedB allSlicesUnchanged
  simp

theorem assembledSlices_cons_none {k : String} {r : SubReducer σ}
    {rest : List (String × SubReducer σ)} {state : List (String × σ)}
    {a : RAction} (hv : r (state.lookup k) a = none) :
    assembledSlices ((k, r) :: rest) state a = assembledSlices rest state a := by
  simp [assembledSlices, List.filterMap_cons, hv]

theorem assembledSlices_cons_some {k : String} {r : SubReducer σ}
    {rest : List (String × SubReducer σ)} {state : List (String × σ)}
    {a : RAction} {v : σ} (hv : r (state.lookup k) a = some v) :
    assembledSlices ((k, r) :: rest) state a
      = (k, v) :: assembledSlices rest state a := by
  simp [assembledSlices, List.filterMap_cons, hv]

theorem hasChangedB_cons [DecidableEq σ] {k : String} {r : SubReducer σ}
    {rest : List (String × SubReducer σ)} {state : List (String × σ)}
    {a : RAction} :
    hasChangedB ((k, r) :: rest) state a
      = (decide (r (state.lookup k) a ≠ state.lookup k)
          || hasChangedB rest state a) := by
  simp [hasChangedB, List.any_cons]

theorem combineSlices_ok [DecidableEq σ] :
    ∀ (frs : List (String × SubReducer σ)) (state : List (String × σ))
      (a : RAction),
      (∀ p ∈ frs, p.2 (state.lookup p.1) a ≠ none) →
      combineSlices frs state a
        = Except.ok (assembledSlices frs state a, hasChangedB frs state a) := by
  intro frs state a
  induction frs with
  | nil => intro _; rfl
  | cons q rest ih =>
    intro hdef
    obtain ⟨k, r⟩ := q
    rcases hv : r (state.lookup k) a with _ | next
    · exact absurd hv (hdef (k, r) (List.mem_cons_self _ _))
    · have hrest : ∀ p ∈ rest, p.2 (state.lookup p.1) a ≠ none :=
        fun p hp => hdef p (List.mem_cons_of_mem _ hp)
      rw [assembledSlices_cons_some hv, hasChangedB_cons]
      simp only [combineSlices, hv, ih hrest]
      rw [Bool.or_comm]


theorem assembled_keys [DecidableEq σ] :
    ∀ (frs : List (String × SubReducer σ)) (state : List (String × σ))
      (a : RAction),
      (∀ p ∈ frs, p.2 (state.lookup p.1) a ≠ none) →
      (assembledSlices frs state a).map Prod.fst = frs.map Prod.fst := by
  intro frs state a
  induction frs with
  | nil => intro _; rfl
  | cons q rest ih =>
    intro hdef
    obtain ⟨k, r⟩ := q
    rcases hv : r (state.lookup k) a with _ | next
    · exact absurd hv (hdef (k, r) (List.mem_cons_self _ _))
    · have hrest : ∀ p ∈ rest, p.2 (state.lookup p.1) a ≠ none :=
        fun p hp => hdef p (List.mem_cons_of_mem _ hp)
      rw [assembledSlices_cons_some hv]
      simp only [List.map_cons, ih hrest]

theorem assembled_keys_sub (frs : List (String × SubReducer σ))
    (state : List (String × σ)) (a : RAction) (k : String)
    (hk : k ∈ (assembledSlices frs state a).map Prod.fst) :
    k ∈ frs.map Prod.fst := by
  induction frs with
  | nil => simp [assembledSlices] at hk
  | cons q rest ih =>
    obtain ⟨k1, r⟩ := q
    rcases hv : r (state.lookup k1) a with _ | next
    · rw [assembledSlices_cons_none hv] at hk
      exact List.mem_cons_of_mem _ (ih hk)
    · rw [assembledSlices_cons_some hv] at hk
      simp only [List.map_cons, List.mem_cons] at hk
      rcases hk with hk | hk
      · exact hk ▸ List.mem_cons_self _ _
      · exact List.mem_cons_of_mem _ (ih hk)

theorem lookup_assembled [DecidableEq σ] :
    ∀ (frs : List (String × SubReducer σ)) (state : List (String × σ))
      (a : RAction) (p : String × SubReducer σ),
      (frs.map Prod.fst).Nodup → p ∈ frs →
      (assembledSlices frs state a).lookup p.1 = p.2 (state.lookup p.1) a := by
  intro frs state a
  induction frs with
  | nil => intro p _ hp; simp at hp
  | cons q rest ih =>
    intro p hnodup hp
    have hnd1 : q.1 ∉ rest.map Prod.fst := by
      simp only [List.map_cons, List.nodup_cons] at hnodup
      exact hnodup.1
    have hnd2 : (rest.map Prod.fst).Nodup := by
      simp only [List.map_cons, List.nodup_cons] at hnodup
      exact hnodup.2
    obtain ⟨k1, r⟩ := q
    rcases List.mem_cons.1 hp with rfl | hp2
    · show (assembledSlices ((k1, r) :: rest) state a).lookup k1
        = r (state.lookup k1) a
      rcases hv : r (state.lookup k1) a with _ | next
      · rw [assembledSlices_cons_none hv, List.lookup_eq_none_iff]
        intro en hen
        have hk : en.1 ∈ rest.map Prod.fst :=
          assembled_keys_sub rest state a en.1
            (List.mem_map_of_mem Prod.fst hen)
        have hne : k1 ≠ en.1 := by
          intro he
          exact hnd1 (by simpa [he] using hk)
        simpa using hne
      · rw [assembledSlices_cons_some hv]
        exact List.lookup_cons_self
    · have hne : p.1 ≠ k1 := by
        intro he
        apply hnd1
        show k1 ∈ rest.map Prod.fst
        rw [← he]
        exact List.mem_map_of_mem Prod.fst hp2
      rcases hv : r (state.lookup k1) a with _ | next
      · rw [assembledSlices_cons_none hv]
        exact ih p hnd2 hp2
      · rw [assembledSlices_cons_some hv, List.lookup_cons]
        have hbeq : (p.1 == k1) = false := by simpa using hne
        rw [hbeq]
        exact ih p hnd2 hp2

theorem assertReducerShape_isSome (probeFor : String → String) :
    ∀ frs : List (String × SubReducer σ),
      (∃ p ∈ frs, (p.2 none initAction).isNone = true
        ∨ (p.2 none (probeAction (probeFor p.1))).isNone = true) →
      (assertReducerShape probeFor frs).isSome = true := by
  intro frs
  induction frs with
  | nil => intro h; simp at h
  | cons q rest ih =>
    intro h
    obtain ⟨k, r⟩ := q
    by_cases h1 : (r none initAction).isNone = true
    · simp [assertReducerShape, h1]
    · by_cases h2 : (r none (probeAction (probeFor k))).isNone = true
      · simp [assertReducerShape, h1, h2]
      · have hrest : ∃ p ∈ rest, (p.2 none initAction).isNone = true
            ∨ (p.2 none (probeAction (probeFor p.1))).isNone = true := by
          obtain ⟨p, hp, hbad⟩ := h
          rcases List.mem_cons.1 hp with rfl | hp2
          · rcases hbad with hbad | hbad
            · exact absurd hbad h1
            · exact absurd hbad h2
          · exact ⟨p, hp2, hbad⟩
        simp only [assertReducerShape, h1, h2, if_false]
        exact ih hrest

/-- C3: on a composite reducer whose probes passed and whose
sub-reducers all return a defined slice, if every sub-reducer returns
its input slice unchanged (reference identity, modelled as value
identity) the composite returns the original state object itself;
otherwise it returns the newly assembled record whose keys are exactly
the known reducer keys and in which every unchanged key keeps a slice
identical to the input slice. -/
theorem combination_structural_sharing [DecidableEq σ] (c : Composite σ)
    (state : List (String × σ)) (a : RAction)
    (hshape : c.shapeErr = none)
    (hnodup : (c.finalReducers.map Prod.fst).Nodup)
    (hdef : ∀ p ∈ c.finalReducers, p.2 (state.lookup p.1) a ≠ none) :
    (allSlicesUnchanged c.finalReducers state a →
        combination c state a = Except.ok state)
    ∧ (¬ allSlicesUnchanged c.finalReducers state a →
        combination c state a
            = Except.ok (assembledSlices c.finalReducers state a)
        ∧ (assembledSlices c.finalReducers state a).map Prod.fst
            = c.finalReducers.map Prod.fst
        ∧ ∀ p ∈ c.finalReducers,
            p.2 (state.lookup p.1) a = state.lookup p.1 →
            (assembledSlices c.finalReducers state a).lookup p.1
              = state.lookup p.1) := by
  have hcs := combineSlices_ok c.finalReducers state a hdef
  constructor
  · intro hall
    have hcb : hasChangedB c.finalReducers state a = false :=
      (hasChangedB_false_iff c.finalReducers state a).2 hall
    simp [combination, hshape, hcs, hcb]
  · intro hnall
    have hcb : hasChangedB c.finalReducers state a = true := by
      cases hb : hasChangedB c.finalReducers state a with
      | false =>
        exact absurd ((hasChangedB_false_iff c.finalReducers state a).1 hb) hnall
      | true => rfl
    refine ⟨by simp [combination, hshape, hcs, hcb],
      assembled_keys c.finalReducers state a hdef, ?_⟩
    intro p hp hunch
    rw [lookup_assembled c.finalReducers state a p hnodup hp]
    exact hunch

/-- C9: on a composite reducer whose probes passed and whose
sub-reducers all return a defined slice, a key of the input state that
is not among the known reducer keys is silently dropped from the result
whenever some slice changed (the assembled record has no entry for it),
and is retained whenever no slice changed (the original state object is
returned). -/
theorem combination_unknown_keys [DecidableEq σ] (c : Composite σ)
    (state : List (String × σ)) (a : RAction) (k : String)
    (hshape : c.shapeErr = none)
    (hdef : ∀ p ∈ c.finalReducers, p.2 (state.lookup p.1) a ≠ none)
    (hkUnknown : k ∉ c.finalReducers.map Prod.fst)
    (hkIn : k ∈ state.map Prod.fst) :
    (¬ allSlicesUnchanged c.finalReducers state a →
        combination c state a
            = Except.ok (assembledSlices c.finalReducers state a)
        ∧ (assembledSlices c.finalReducers state a).lookup k = none)
    ∧ (allSlicesUnchanged c.finalReducers state a →
        combination c state a = Except.ok state
        ∧ state.lookup k ≠ none) := by
  have hcs := combineSlices_ok c.finalReducers state a hdef
  constructor
  · intro hnall
    have hcb : hasChangedB c.finalReducers state a = true := by
      cases hb : hasChangedB c.finalReducers state a with
      | false =>
        exact absurd ((hasChangedB_false_iff c.finalReducers state a).1 hb) hnall
      | true => rfl
    refine ⟨by simp [combination, hshape, hcs, hcb], ?_⟩
    rw [List.lookup_eq_none_iff]
    intro en hen
    have hk : en.1 ∈ c.finalReducers.map Prod.fst :=
      assembled_keys_sub c.finalReducers state a en.1
        (List.mem_map_of_mem Prod.fst hen)
    have hne : k ≠ en.1 := by
      intro he
      exact hkUnknown (by simpa [he] using hk)
    simpa using hne
  · intro hall
    have hcb : hasChangedB c.finalReducers state a = false :=
      (hasChangedB_false_iff c.finalReducers state a).2 hall
    refine ⟨by simp [combination, hshape, hcs, hcb], ?_⟩
    intro hnone
    rw [List.lookup_eq_none_iff] at hnone
    obtain ⟨p, hp, hk⟩ := List.mem_map.1 hkIn
    have := hnone p hp
    rw [hk] at this
    simp at this

/-- C4: when some kept sub-reducer answers `undefined` to the INIT probe
or to the unknown-type probe, building the composite captures a shape
assertion error (the call itself completes and returns the composite),
and every invocation of the returned composite reducer throws exactly
that captured error. -/
theorem combineReducers_defers_shape_error [DecidableEq σ]
    (probeFor : String → String)
    (reducers : List (String × Option (SubReducer σ)))
    (hbad : ∃ p ∈ (combineReducers probeFor reducers).finalReducers,
        (p.2 none initAction).isNone = true
        ∨ (p.2 none (probeAction (probeFor p.1))).isNone = true) :
    ((combineReducers probeFor reducers).shapeErr).isSome = true
    ∧ ∀ e, (combineReducers probeFor reducers).shapeErr = some e →
        ∀ (state : List (String × σ)) (a : RAction),
          combination (combineReducers probeFor reducers) state a
            = Except.error e := by
  constructor
  · exact assertReducerShape_isSome probeFor
      (combineReducers probeFor reducers).finalReducers hbad
  · intro e he state a
    simp [combination, he]

/-- C3 witness: on the two-key composite, an action changing nothing
returns the input state object itself, and an action changing only key
`b` returns the assembled record in which key `a` keeps a slice
identical to the input slice. -/
theorem combination_structural_sharing_w :
    combination wComb wStateAB wActionX = Except.ok wStateAB
    ∧ combination wComb wStateAB wActionB
        = Except.ok (assembledSlices wComb.finalReducers wStateAB wActionB)
    ∧ (assembledSlices wComb.finalReducers wStateAB wActionB).lookup "a"
        = wStateAB.lookup "a" := by
  have hl : wComb.finalReducers = [("a", wRa), ("b", wRb)] := rfl
  have hnodup : (wComb.finalReducers.map Prod.fst).Nodup := by
    rw [hl]; decide
  have hdefX : ∀ p ∈ wComb.finalReducers,
      p.2 (wStateAB.lookup p.1) wActionX ≠ none := by
    intro p hp
    rw [hl] at hp
    rcases List.mem_cons.1 hp with rfl | hp2
    · simp [wRa]
    · rcases List.mem_cons.1 hp2 with rfl | hp3
      · simp [wRb, wActionX]
      · simp at hp3
  have hdefB : ∀ p ∈ wComb.finalReducers,
      p.2 (wStateAB.lookup p.1) wActionB ≠ none := by
    intro p hp
    rw [hl] at hp
    rcases List.mem_cons.1 hp with rfl | hp2
    · simp [wRa]
    · rcases List.mem_cons.1 hp2 with rfl | hp3
      · simp [wRb, wActionB]
      · simp at hp3
  have hallX : allSlicesUnchanged wComb.finalReducers wStateAB wActionX := by
    intro p hp
    rw [hl] at hp
    rcases List.mem_cons.1 hp with rfl | hp2
    · rfl
    · rcases List.mem_cons.1 hp2 with rfl | hp3
      · rfl
      · simp at hp3
  have hnallB : ¬ allSlicesUnchanged wComb.finalReducers wStateAB wActionB := by
    intro hall
    have hmemb : ("b", wRb) ∈ wComb.finalReducers := by
      rw [hl]; exact List.Mem.tail _ (List.Mem.head _)
    exact absurd (hall ("b", wRb) hmemb) (by decide)
  have h1 := combination_structural_sharing wComb wStateAB wActionX rfl
    hnodup hdefX
  have h2 := combination_structural_sharing wComb wStateAB wActionB rfl
    hnodup hdefB
  refine ⟨h1.1 hallX, (h2.2 hnallB).1, ?_⟩
  exact (h2.2 hnallB).2.2 ("a", wRa)
    (by rw [hl]; exact List.mem_cons_self _ _) rfl

/-- C9 witness: on the two-key composite with an input state carrying an
unknown key `z`, the changing action drops `z` from the result, and the
non-changing action returns the original state object in which `z` is
retained. -/
theorem combination_unknown_keys_w :
    combination wComb wStateABZ wActionB
        = Except.ok (assembledSlices wComb.finalReducers wStateABZ wActionB)
    ∧ (assembledSlices wComb.finalReducers wStateABZ wActionB).lookup "z" = none
    ∧ combination wComb wStateABZ wActionX = Except.ok wStateABZ
    ∧ wStateABZ.lookup "z" ≠ none := by
  have hl : wComb.finalReducers = [("a", wRa), ("b", wRb)] := rfl
  have hdefX : ∀ p ∈ wComb.finalReducers,
      p.2 (wStateABZ.lookup p.1) wActionX ≠ none := by
    intro p hp
    rw [hl] at hp
    rcases List.mem_cons.1 hp with rfl | hp2
    · simp [wRa]
    · rcases List.mem_cons.1 hp2 with rfl | hp3
      · simp [wRb, wActionX]
      · simp at hp3
  have hdefB : ∀ p ∈ wComb.finalReducers,
      p.2 (wStateABZ.lookup p.1) wActionB ≠ none := by
    intro p hp
    rw [hl] at hp
    rcases List.mem_cons.1 hp with rfl | hp2
    · simp [wRa]
    · rcases List.mem_cons.1 hp2 with rfl | hp3
      · simp [wRb, wActionB]
      · simp at hp3
  have hkU : "z" ∉ wComb.finalReducers.map Prod.fst := by
    rw [hl]; decide
  have hkIn : "z" ∈ wStateABZ.map Prod.fst := by decide
  have hallX : allSlicesUnchanged wComb.finalReducers wStateABZ wActionX := by
    intro p hp
    rw [hl] at hp
    rcases List.mem_cons.1 hp with rfl | hp2
    · rfl
    · rcases List.mem_cons.1 hp2 with rfl | hp3
      · rfl
      · simp at hp3
  have hnallB : ¬ allSlicesUnchanged wComb.finalReducers wStateABZ wActionB := by
    intro hall
    have hmemb : ("b", wRb) ∈ wComb.finalReducers := by
      rw [hl]; exact List.Mem.tail _ (List.Mem.head _)
    exact absurd (hall ("b", wRb) hmemb) (by decide)
  have h1 := combination_unknown_keys wComb wStateABZ wActionB "z" rfl
    hdefB hkU hkIn
  have h2 := combination_unknown_keys wComb wStateABZ wActionX "z" rfl
    hdefX hkU hkIn
  exact ⟨(h1.1 hnallB).1, (h1.1 hnallB).2, (h2.2 hallX).1, (h2.2 hallX).2⟩

/-- C4 witness: the composite over a single always-`undefined`
sub-reducer is built without throwing, captures the INIT-probe error,
and its first invocation throws exactly that error. -/
theorem combineReducers_defers_shape_error_w :
    wBadComb.shapeErr.isSome = true
    ∧ combination wBadComb ([] : List (String × Nat)) wActionX
        = Except.error (Err.reducerUndefinedOnInit "k") := by
  have h := combineReducers_defers_shape_error (fun _ => "p")
    [("k", some wBadSub)]
    ⟨("k", wBadSub), List.mem_cons_self _ _, Or.inl rfl⟩
  exact ⟨h.1, h.2 (Err.reducerUndefinedOnInit "k") rfl [] wActionX⟩

end Redux
